import Mathlib

/-!
Formal model of the pqrs core (`src/utils.rs`): the `ParquetData` aggregate and
its merge (the `Add` impl), row printing (`print_rows`), random sampling
(`print_rows_random`), row counting (`get_row_count`), file opening
(`open_file`) and human-readable size rendering (`get_pretty_size`).

The columnar codec (the `parquet`/`arrow` crates) is external: a parquet file
is modelled as its sequence of row groups, each carrying its decoded rows and
the `num_rows` field of its row-group metadata; schemas and record batches are
opaque type parameters, a record batch only exposing its row count through a
`num_rows` function, exactly as the core uses them.  Machine integers (`i64`)
are modelled as `Int`; the one place a cast matters (`sample_size as usize` in
`print_rows_random`) is modelled by the two's-complement reinterpretation
`i64_as_usize`.  The non-deterministic shuffle of `rand` is modelled as an
explicit `shuffle` parameter, constrained to be a permutation in the theorems.
Printing is modelled by returning the list of printed lines (or of rows handed
to `print_row`), with the row renderers (`to_json_value` / `to_string`) as
parameters.
-/

namespace PQRS

/-- Model of `PQRSError` (`src/errors.rs` is referenced by `src/utils.rs`;
only the variant used by `open_file` matters here). -/
inductive PQRSError where
  | CouldNotOpenFile : String → PQRSError
deriving DecidableEq

/-- Model of `open_file`: the filesystem is an explicit map from path to an
optionally-openable file handle; `File::open` failing is `fs file_name = none`.
Mirrors: `match File::open(&path) { Err(_) => return Err(CouldNotOpenFile(..)), Ok(f) => f }`. -/
def open_file {File : Type} (fs : String → Option File) (file_name : String) :
    Except PQRSError File :=
  match fs file_name with
  | none => Except.error (PQRSError.CouldNotOpenFile file_name)
  | some f => Except.ok f

/-- One row group of a parquet file: its decoded rows together with the
`num_rows` field of its row-group metadata (an `i64` in the parquet crate). -/
structure RowGroup (Row : Type) where
  rows : List Row
  num_rows : Int

/-- A parquet file, as the codec exposes it to this core: its row groups. -/
structure PFile (Row : Type) where
  row_groups : List (RowGroup Row)

/-- A file is well formed when every row group's metadata `num_rows` equals
the number of rows the group actually decodes to (the parquet format
guarantees this for valid files; it is the codec's contract). -/
def PFile.valid {Row : Type} (f : PFile Row) : Prop :=
  ∀ g ∈ f.row_groups, g.num_rows = (g.rows.length : Int)

/-- Model of `get_row_count`: sum of `rg.num_rows()` over the row-group
metadata entries. -/
def get_row_count {Row : Type} (f : PFile Row) : Int :=
  (f.row_groups.map (fun g => g.num_rows)).sum

/-- The codec's row iterator (`get_row_iter`): all decoded rows of the file, in
file order (row groups in order, rows within each group in order). -/
def iterate_rows {Row : Type} (f : PFile Row) : List Row :=
  (f.row_groups.map (fun g => g.rows)).flatten

/-- Model of `print_row`: renders one row either with `to_json_value` or with
`to_string`, both opaque renderers supplied by the codec. -/
def print_row {Row : Type} (to_json to_display : Row → String) (row : Row)
    (use_json : Bool) : String :=
  if use_json then to_json row else to_display row

/-- The `println!("CurrentRow {} {}", start, end)` line emitted by
`print_rows` before each row. -/
def current_row_line (start_i end_i : Int) : String :=
  "CurrentRow " ++ toString start_i ++ " " ++ toString end_i

/-- The `while all_records || start < end` loop of `print_rows`: `start_i` is
the running counter, the returned list is the sequence of printed lines
(`CurrentRow` line, then the rendered row, for each emitted row). -/
def print_rows_go {Row : Type} (to_json to_display : Row → String) (json : Bool)
    (all_records : Bool) (end_i : Int) : Int → List Row → List String
  | start_i, rows =>
    if all_records ∨ start_i < end_i then
      match rows with
      | [] => []
      | row :: rest =>
          current_row_line start_i end_i ::
          print_row to_json to_display row json ::
          print_rows_go to_json to_display json all_records end_i (start_i + 1) rest
    else []
  termination_by _ rows => rows.length

/-- Model of `print_rows`: `end = num_records.unwrap_or(0)`,
`all_records = num_records.is_none()`, counter starts at 0. -/
def print_rows {Row : Type} (to_json to_display : Row → String) (json : Bool)
    (rows : List Row) (num_records : Option Int) : List String :=
  print_rows_go to_json to_display json num_records.isNone (num_records.getD 0) 0 rows

/-- The rows `print_rows` emits, in closed form: all of them when no count is
given, the first `c` (clamped) otherwise. -/
def emitted_rows {Row : Type} (rows : List Row) (num_records : Option Int) :
    List Row :=
  match num_records with
  | none => rows
  | some c => rows.take c.toNat

/-- Closed form of the printed output of `print_rows`: for the row at 0-based
position `i` of the emitted prefix, the line `CurrentRow i end` followed by the
row's rendering. -/
def row_output {Row : Type} (to_json to_display : Row → String) (json : Bool)
    (end_i : Int) (emitted : List Row) : List String :=
  (emitted.enum.map (fun p =>
    [current_row_line (p.1 : Int) end_i,
     print_row to_json to_display p.2 json])).flatten

/-- Rust's `k as usize` on an `i64` value modelled over `Int`: two's-complement
reinterpretation, i.e. reduction modulo `2 ^ 64` into `[0, 2 ^ 64)`. -/
def i64_as_usize (k : Int) : Nat := (k % (2 ^ 64 : Int)).toNat

/-- The integer interval `[s, s + n)` as a list, in increasing order. -/
def int_range_from (s : Int) : Nat → List Int
  | 0 => []
  | n + 1 => s :: int_range_from (s + 1) n

/-- Model of `(0..total_records_in_file).collect::<Vec<i64>>()`: the interval
`[0, n)` (empty when `n ≤ 0`). -/
def int_range (n : Int) : List Int := int_range_from 0 n.toNat

/-- The emission loop of `print_rows_random`: walk the row iterator with a
counter `start_i`, emitting (printing) exactly the rows whose position is a
member of `indexes`. -/
def sample_go {Row : Type} (indexes : List Int) : Int → List Row → List Row
  | _, [] => []
  | start_i, row :: rest =>
    if start_i ∈ indexes then row :: sample_go indexes (start_i + 1) rest
    else sample_go indexes (start_i + 1) rest

/-- Model of `print_rows_random`, returning the list of rows handed to
`print_row` (in emission order).  `shuffle` stands for the in-place
`indexes.shuffle(&mut thread_rng())`; the kept index set is the first
`sample_size as usize` elements of the shuffled domain `[0, total)`. -/
def print_rows_random {Row : Type} (shuffle : List Int → List Int)
    (f : PFile Row) (sample_size : Int) : List Row :=
  let total := get_row_count f
  let indexes := (shuffle (int_range total)).take (i64_as_usize sample_size)
  sample_go indexes 0 (iterate_rows f)

/-- Model of the `ParquetData` struct: schema, ordered record batches, total
row count (`usize`, modelled as `Nat`).  Schemas and batches are opaque. -/
structure ParquetData (Schema Batch : Type) where
  schema : Schema
  batches : List Batch
  rows : Nat

/-- Model of `impl Add for ParquetData`: batches of the left operand followed
by those of the right (`append` twice into `combined_data`), the left schema,
summed row counts. -/
def ParquetData.add {Schema Batch : Type} (lhs rhs : ParquetData Schema Batch) :
    ParquetData Schema Batch :=
  { schema := lhs.schema
    batches := lhs.batches ++ rhs.batches
    rows := lhs.rows + rhs.rows }

/-- Model of the read loop of `get_row_batches`: the batch reader's yield is
the list `reader`; each batch adds `num_rows b` to `rows` and is pushed onto
`batches`.  `num_rows` abstracts `RecordBatch::num_rows`. -/
def get_row_batches {Schema Batch : Type} (num_rows : Batch → Nat)
    (schema : Schema) (reader : List Batch) : ParquetData Schema Batch :=
  let acc := reader.foldl (fun a b => (a.1 ++ [b], a.2 + num_rows b)) ([], 0)
  { schema := schema, batches := acc.1, rows := acc.2 }

/-- The `ParquetData` invariant of the spec: `rows` equals the sum of the row
counts of `batches`. -/
def rows_invariant {Schema Batch : Type} (num_rows : Batch → Nat)
    (d : ParquetData Schema Batch) : Prop :=
  d.rows = (d.batches.map num_rows).sum

/-- The byte-size constants of `src/utils.rs`. -/
def ONE_KI_B : Int := 1024

/-- `ONE_KI_B * 1024`. -/
def ONE_MI_B : Int := ONE_KI_B * 1024

/-- `ONE_MI_B * 1024`. -/
def ONE_GI_B : Int := ONE_MI_B * 1024

/-- `ONE_GI_B * 1024`. -/
def ONE_TI_B : Int := ONE_GI_B * 1024

/-- `ONE_TI_B * 1024`. -/
def ONE_PI_B : Int := ONE_TI_B * 1024

/-- Model of `get_pretty_size`.  Division on `i64` truncates toward zero
(`Int.tdiv`).  Rust's `format!("{:.3} KiB", q)` is applied to an *integer*
`q`, and the precision specifier is ignored for integral types, so the
rendering is the plain decimal of the truncated quotient followed by the unit
name — no fractional digits are ever printed. -/
def get_pretty_size (bytes : Int) : String :=
  if Int.tdiv bytes ONE_KI_B < 1 then toString bytes ++ " Bytes"
  else if Int.tdiv bytes ONE_MI_B < 1 then toString (Int.tdiv bytes ONE_KI_B) ++ " KiB"
  else if Int.tdiv bytes ONE_GI_B < 1 then toString (Int.tdiv bytes ONE_MI_B) ++ " MiB"
  else if Int.tdiv bytes ONE_TI_B < 1 then toString (Int.tdiv bytes ONE_GI_B) ++ " GiB"
  else if Int.tdiv bytes ONE_PI_B < 1 then toString (Int.tdiv bytes ONE_TI_B) ++ " TiB"
  else toString (Int.tdiv bytes ONE_PI_B) ++ " PiB"

/-- Spec-side rendering, following the spec's words: select the largest unit
among Bytes, KiB, MiB, GiB, TiB, PiB whose byte count divides into the input
with quotient at least 1, falling back to Bytes for values under 1024, and
render the (truncated) quotient followed by the unit name. -/
def pretty_size_spec (bytes : Int) : String :=
  if 1 ≤ Int.tdiv bytes ONE_PI_B then toString (Int.tdiv bytes ONE_PI_B) ++ " PiB"
  else if 1 ≤ Int.tdiv bytes ONE_TI_B then toString (Int.tdiv bytes ONE_TI_B) ++ " TiB"
  else if 1 ≤ Int.tdiv bytes ONE_GI_B then toString (Int.tdiv bytes ONE_GI_B) ++ " GiB"
  else if 1 ≤ Int.tdiv bytes ONE_MI_B then toString (Int.tdiv bytes ONE_MI_B) ++ " MiB"
  else if 1 ≤ Int.tdiv bytes ONE_KI_B then toString (Int.tdiv bytes ONE_KI_B) ++ " KiB"
  else toString bytes ++ " Bytes"

/-! ## Helper lemmas -/

lemma get_row_batches_foldl {B : Type} (num_rows : B → Nat) (reader : List B)
    (l : List B) (n : Nat) :
    reader.foldl (fun a b => (a.1 ++ [b], a.2 + num_rows b)) (l, n) =
      (l ++ reader, n + (reader.map num_rows).sum) := by
  induction reader generalizing l n with
  | nil => simp
  | cons b t ih => simp [ih, List.append_assoc]; omega

lemma get_row_batches_eq {S B : Type} (num_rows : B → Nat) (schema : S)
    (reader : List B) :
    get_row_batches num_rows schema reader =
      { schema := schema, batches := reader, rows := (reader.map num_rows).sum } := by
  simp only [get_row_batches]
  rw [get_row_batches_foldl num_rows reader [] 0]
  simp

lemma int_cast_list_sum (l : List Nat) :
    ((l.sum : Nat) : Int) = (l.map (fun n => (n : Int))).sum := by
  induction l with
  | nil => rfl
  | cons a t ih => simp [List.sum_cons, ih]

lemma row_count_eq_length {Row : Type} (f : PFile Row) (h : f.valid) :
    get_row_count f = ((iterate_rows f).length : Int) := by
  obtain ⟨gs⟩ := f
  simp only [get_row_count, iterate_rows]
  revert h
  induction gs with
  | nil => intro _; rfl
  | cons g t ih =>
    intro h
    have hg : g.num_rows = (g.rows.length : Int) := h g (List.mem_cons_self g t)
    have ih' := ih (fun g' hg' => h g' (List.mem_cons_of_mem g hg'))
    simp only [List.map_cons, List.sum_cons, List.flatten_cons, List.length_append]
    rw [hg, ih']
    push_cast
    ring

lemma int_range_from_length (s : Int) (n : Nat) : (int_range_from s n).length = n := by
  induction n generalizing s with
  | zero => rfl
  | succ m ih => simp [int_range_from, ih]

lemma int_range_from_mem (s : Int) (n : Nat) (x : Int) :
    x ∈ int_range_from s n ↔ s ≤ x ∧ x < s + n := by
  induction n generalizing s with
  | zero => simp [int_range_from]
  | succ m ih => simp [int_range_from, ih]; omega

lemma int_range_from_nodup (s : Int) (n : Nat) : (int_range_from s n).Nodup := by
  induction n generalizing s with
  | zero => simp [int_range_from]
  | succ m ih =>
    rw [int_range_from, List.nodup_cons]
    refine ⟨?_, ih (s + 1)⟩
    rw [int_range_from_mem]
    omega

lemma sample_go_sublist {Row : Type} (idx : List Int) (s : Int) (rows : List Row) :
    (sample_go idx s rows).Sublist rows := by
  induction rows generalizing s with
  | nil => simp [sample_go]
  | cons r t ih =>
    simp only [sample_go]
    split
    · exact List.Sublist.cons₂ r (ih (s + 1))
    · exact List.Sublist.cons r (ih (s + 1))

lemma sample_go_length_filter {Row : Type} (idx : List Int) (s : Int) (rows : List Row) :
    (sample_go idx s rows).length =
      ((int_range_from s rows.length).filter (fun i => decide (i ∈ idx))).length := by
  induction rows generalizing s with
  | nil => rfl
  | cons r t ih =>
    by_cases h : s ∈ idx
    · simp [sample_go, h, int_range_from, List.filter_cons, ih (s + 1)]
    · simp [sample_go, h, int_range_from, List.filter_cons, ih (s + 1)]

lemma filter_mem_length (idx dom : List Int) (hd : dom.Nodup) (hi : idx.Nodup)
    (hsub : ∀ x ∈ idx, x ∈ dom) :
    (dom.filter (fun i => decide (i ∈ idx))).length = idx.length := by
  have hperm : (dom.filter (fun i => decide (i ∈ idx))).Perm idx := by
    rw [List.perm_ext_iff_of_nodup (hd.filter _) hi]
    intro a
    simp only [List.mem_filter, decide_eq_true_eq]
    exact ⟨fun p => p.2, fun p => ⟨hsub a p, p⟩⟩
  exact hperm.length_eq

lemma sample_go_all {Row : Type} (idx : List Int) (rows : List Row) :
    ∀ s : Int, (∀ i : Int, s ≤ i → i < s + rows.length → i ∈ idx) →
      sample_go idx s rows = rows := by
  induction rows with
  | nil => intro s _; rfl
  | cons r t ih =>
    intro s h
    have hlen : ((r :: t).length : Int) = (t.length : Int) + 1 := by simp
    have hs : s ∈ idx := h s le_rfl (by omega)
    simp only [sample_go, if_pos hs]
    refine congrArg (fun l => r :: l) (ih (s + 1) ?_)
    intro i h1 h2
    exact h i (by omega) (by omega)

lemma sample_go_nil {Row : Type} (s : Int) (rows : List Row) :
    sample_go [] s rows = [] := by
  induction rows generalizing s with
  | nil => rfl
  | cons r t ih => simp [sample_go, ih]

lemma i64_as_usize_of_nonneg (k : Int) (h0 : 0 ≤ k) (h1 : k < 2 ^ 63) :
    i64_as_usize k = k.toNat := by
  unfold i64_as_usize
  have h2 : (2 : Int) ^ 64 = 18446744073709551616 := by norm_num
  have h3 : (2 : Int) ^ 63 = 9223372036854775808 := by norm_num
  rw [h2]
  rw [h3] at h1
  omega

lemma i64_as_usize_of_neg (k : Int) (h0 : -2 ^ 63 ≤ k) (h1 : k < 0) :
    9223372036854775808 ≤ i64_as_usize k := by
  unfold i64_as_usize
  have h2 : (2 : Int) ^ 64 = 18446744073709551616 := by norm_num
  have h3 : -(2 : Int) ^ 63 = -9223372036854775808 := by norm_num
  rw [h2]
  rw [h3] at h0
  omega

/-! ## Claim theorems -/

/-- C1: merge (the `Add` impl) returns a `ParquetData` whose schema is the left
operand's schema, whose batches are the left batches followed by the right
batches in that order, and whose row count is the sum of the operands' row
counts. -/
theorem add_c1 {S B : Type} (a b : ParquetData S B) :
    (a.add b).schema = a.schema ∧
    (a.add b).batches = a.batches ++ b.batches ∧
    (a.add b).rows = a.rows + b.rows :=
  ⟨rfl, rfl, rfl⟩

/-- C4: the invariant `rows = sum of batch row counts` holds for every
`ParquetData` built by `get_row_batches`, and is preserved by merge: if it
holds for both operands it holds for the result. -/
theorem rows_invariant_c4 {S B : Type} (num_rows : B → Nat) (schema : S)
    (reader : List B) (a b : ParquetData S B) :
    rows_invariant num_rows (get_row_batches num_rows schema reader) ∧
    (rows_invariant num_rows a → rows_invariant num_rows b →
      rows_invariant num_rows (a.add b)) := by
  constructor
  · unfold rows_invariant
    rw [get_row_batches_eq]
  · intro ha hb
    unfold rows_invariant at ha hb ⊢
    simp [ParquetData.add, ha, hb]

/-- C4 witness: a concrete merge of two invariant-respecting values satisfies
the invariant. -/
theorem rows_invariant_c4_witness :
    rows_invariant List.length
      (ParquetData.add (⟨0, [[2]], 1⟩ : ParquetData Nat (List Nat)) ⟨0, [[3, 4]], 2⟩) :=
  (rows_invariant_c4 List.length 0 [] _ _).2 rfl rfl

/-- C5: merge is associative: grouping does not change the batch sequence, the
schema (both groupings take the leftmost operand's schema) or the row count. -/
theorem add_assoc_c5 {S B : Type} (a b c : ParquetData S B) :
    ((a.add b).add c).batches = (a.add (b.add c)).batches ∧
    ((a.add b).add c).schema = (a.add (b.add c)).schema ∧
    ((a.add b).add c).rows = (a.add (b.add c)).rows := by
  refine ⟨?_, rfl, ?_⟩
  · simp [ParquetData.add, List.append_assoc]
  · simp [ParquetData.add, Nat.add_assoc]

/-- C2: over a valid file of `n` rows and with the shuffle a permutation of
the index domain, a requested sample size `k` with `0 < k ≤ n` makes
`print_rows_random` emit exactly `k` rows, distinct rows of the file in
original file order (a sublist of the file's row sequence of length `k`), and
any `k ≥ n` (within the `i64` range) makes it emit all `n` rows exactly once
each, i.e. the whole file. -/
theorem print_rows_random_c2 {Row : Type} (shuffle : List Int → List Int)
    (f : PFile Row) (k : Int) (hvalid : f.valid)
    (hperm : (shuffle (int_range (get_row_count f))).Perm
      (int_range (get_row_count f)))
    (hk : k < 2 ^ 63) :
    (0 < k → k ≤ ((iterate_rows f).length : Int) →
      (print_rows_random shuffle f k).Sublist (iterate_rows f) ∧
      ((print_rows_random shuffle f k).length : Int) = k) ∧
    (((iterate_rows f).length : Int) ≤ k →
      print_rows_random shuffle f k = iterate_rows f) := by
  set rows := iterate_rows f with hrows
  set n := rows.length with hn
  have htot : get_row_count f = (n : Int) := row_count_eq_length f hvalid
  have hrange : int_range (get_row_count f) = int_range_from 0 n := by
    rw [htot]
    unfold int_range
    rw [Int.toNat_natCast]
  set perm := shuffle (int_range (get_row_count f)) with hpermdef
  have hplen : perm.length = n := by
    rw [hperm.length_eq, hrange, int_range_from_length]
  have hpnodup : perm.Nodup := by
    rw [hperm.nodup_iff, hrange]
    exact int_range_from_nodup 0 n
  have hpmem : ∀ x : Int, x ∈ perm ↔ 0 ≤ x ∧ x < (n : Int) := by
    intro x
    rw [hperm.mem_iff, hrange, int_range_from_mem]
    omega
  have hout : print_rows_random shuffle f k =
      sample_go (perm.take (i64_as_usize k)) 0 rows := rfl
  constructor
  · intro h0 hkn
    have hcast : i64_as_usize k = k.toNat := i64_as_usize_of_nonneg k (le_of_lt h0) hk
    set idx := perm.take (i64_as_usize k) with hidx
    have hidxlen : idx.length = k.toNat := by
      rw [hidx, hcast, List.length_take, hplen]
      omega
    have hidxnodup : idx.Nodup := List.Nodup.sublist (List.take_sublist _ _) hpnodup
    constructor
    · rw [hout]
      exact sample_go_sublist _ _ _
    · rw [hout, sample_go_length_filter,
        filter_mem_length idx (int_range_from 0 n) (int_range_from_nodup 0 n)
          hidxnodup ?_, hidxlen]
      · omega
      · intro x hx
        have hxp : x ∈ perm := List.mem_of_mem_take hx
        rw [int_range_from_mem]
        have := (hpmem x).mp hxp
        omega
  · intro hnk
    have h0 : 0 ≤ k := le_trans (Int.natCast_nonneg n) hnk
    have hcast : i64_as_usize k = k.toNat := i64_as_usize_of_nonneg k h0 hk
    have htake : perm.take (i64_as_usize k) = perm := by
      apply List.take_of_length_le
      rw [hplen, hcast]
      omega
    rw [hout, htake]
    apply sample_go_all
    intro i h1 h2
    exact (hpmem i).mpr ⟨by omega, by omega⟩

/-- C2 witness: identity shuffle over a one-group two-row file, sample size 1. -/
theorem print_rows_random_c2_witness :
    PFile.valid (⟨[⟨[5, 6], 2⟩]⟩ : PFile Nat) ∧
    ((fun l => l) (int_range (get_row_count (⟨[⟨[5, 6], 2⟩]⟩ : PFile Nat)))).Perm
      (int_range (get_row_count (⟨[⟨[5, 6], 2⟩]⟩ : PFile Nat))) ∧
    (1 : Int) < 2 ^ 63 ∧
    ((0 < (1 : Int) →
        (1 : Int) ≤ ((iterate_rows (⟨[⟨[5, 6], 2⟩]⟩ : PFile Nat)).length : Int) →
        (print_rows_random (fun l => l) (⟨[⟨[5, 6], 2⟩]⟩ : PFile Nat) 1).Sublist
          (iterate_rows (⟨[⟨[5, 6], 2⟩]⟩ : PFile Nat)) ∧
        ((print_rows_random (fun l => l) (⟨[⟨[5, 6], 2⟩]⟩ : PFile Nat) 1).length : Int) = 1) ∧
      (((iterate_rows (⟨[⟨[5, 6], 2⟩]⟩ : PFile Nat)).length : Int) ≤ (1 : Int) →
        print_rows_random (fun l => l) (⟨[⟨[5, 6], 2⟩]⟩ : PFile Nat) 1 =
          iterate_rows (⟨[⟨[5, 6], 2⟩]⟩ : PFile Nat))) := by
  have hv : PFile.valid (⟨[⟨[5, 6], 2⟩]⟩ : PFile Nat) := by
    intro g hg
    fin_cases hg
    rfl
  have hp : ((fun l => l) (int_range (get_row_count (⟨[⟨[5, 6], 2⟩]⟩ : PFile Nat)))).Perm
      (int_range (get_row_count (⟨[⟨[5, 6], 2⟩]⟩ : PFile Nat))) := List.Perm.refl _
  exact ⟨hv, hp, by norm_num,
    print_rows_random_c2 (fun l => l) (⟨[⟨[5, 6], 2⟩]⟩ : PFile Nat) 1 hv hp (by norm_num)⟩

/-- C3 counterexample: with a negative sample size (`k = -1`) on a one-row
file, `print_rows_random` emits the file's row rather than nothing: the
`sample_size as usize` cast wraps to `2 ^ 64 - 1`, so `take` keeps the whole
shuffled index list. -/
theorem print_rows_random_c3_counterexample :
    print_rows_random (fun l => l) (⟨[⟨[7], 1⟩]⟩ : PFile Nat) (-1) ≠ [] := by decide

/-- C3 as amended: a sample size of exactly 0 selects no indexes and emits no
rows; a negative sample size wraps through the `i64 → usize` cast to at least
`2 ^ 63`, so on any file whose row count is below `2 ^ 63` every index stays
selected and every row is emitted. -/
theorem print_rows_random_c3 {Row : Type} (shuffle : List Int → List Int)
    (f : PFile Row) (k : Int) (hvalid : f.valid)
    (hperm : (shuffle (int_range (get_row_count f))).Perm
      (int_range (get_row_count f)))
    (hk0 : -2 ^ 63 ≤ k)
    (hn : ((iterate_rows f).length : Int) < 2 ^ 63) :
    print_rows_random shuffle f 0 = [] ∧
    (k < 0 → print_rows_random shuffle f k = iterate_rows f) := by
  set rows := iterate_rows f with hrows
  set n := rows.length with hn2
  have htot : get_row_count f = (n : Int) := row_count_eq_length f hvalid
  have hrange : int_range (get_row_count f) = int_range_from 0 n := by
    rw [htot]
    unfold int_range
    rw [Int.toNat_natCast]
  set perm := shuffle (int_range (get_row_count f)) with hpermdef
  have hplen : perm.length = n := by
    rw [hperm.length_eq, hrange, int_range_from_length]
  have hpmem : ∀ x : Int, x ∈ perm ↔ 0 ≤ x ∧ x < (n : Int) := by
    intro x
    rw [hperm.mem_iff, hrange, int_range_from_mem]
    omega
  constructor
  · have hz : i64_as_usize 0 = 0 := by decide
    have hout : print_rows_random shuffle f 0 =
        sample_go (perm.take (i64_as_usize 0)) 0 rows := rfl
    rw [hout, hz, List.take_zero]
    exact sample_go_nil 0 rows
  · intro hkneg
    have hge : 9223372036854775808 ≤ i64_as_usize k := i64_as_usize_of_neg k hk0 hkneg
    have hout : print_rows_random shuffle f k =
        sample_go (perm.take (i64_as_usize k)) 0 rows := rfl
    have htake : perm.take (i64_as_usize k) = perm := by
      apply List.take_of_length_le
      have hn3 : (n : Int) < 2 ^ 63 := hn
      have : n < 9223372036854775808 := by
        have h3 : (2 : Int) ^ 63 = 9223372036854775808 := by norm_num
        omega
      omega
    rw [hout, htake]
    apply sample_go_all
    intro i h1 h2
    exact (hpmem i).mpr ⟨by omega, by omega⟩

/-- C3 witness: identity shuffle over a one-group one-row file, sample sizes 0
and -1. -/
theorem print_rows_random_c3_witness :
    PFile.valid (⟨[⟨[7], 1⟩]⟩ : PFile Nat) ∧
    ((fun l => l) (int_range (get_row_count (⟨[⟨[7], 1⟩]⟩ : PFile Nat)))).Perm
      (int_range (get_row_count (⟨[⟨[7], 1⟩]⟩ : PFile Nat))) ∧
    -2 ^ 63 ≤ (-1 : Int) ∧
    ((iterate_rows (⟨[⟨[7], 1⟩]⟩ : PFile Nat)).length : Int) < 2 ^ 63 ∧
    (print_rows_random (fun l => l) (⟨[⟨[7], 1⟩]⟩ : PFile Nat) 0 = [] ∧
      ((-1 : Int) < 0 →
        print_rows_random (fun l => l) (⟨[⟨[7], 1⟩]⟩ : PFile Nat) (-1) =
          iterate_rows (⟨[⟨[7], 1⟩]⟩ : PFile Nat))) := by
  have hv : PFile.valid (⟨[⟨[7], 1⟩]⟩ : PFile Nat) := by
    intro g hg
    fin_cases hg
    rfl
  have hp : ((fun l => l) (int_range (get_row_count (⟨[⟨[7], 1⟩]⟩ : PFile Nat)))).Perm
      (int_range (get_row_count (⟨[⟨[7], 1⟩]⟩ : PFile Nat))) := List.Perm.refl _
  exact ⟨hv, hp, by norm_num, by decide,
    print_rows_random_c3 (fun l => l) (⟨[⟨[7], 1⟩]⟩ : PFile Nat) (-1) hv hp
      (by norm_num) (by decide)⟩

/-- C8: `get_row_count` is the sum of the per-row-group `num_rows` metadata
fields, and for a valid file this equals the number of rows the row iterator
yields. -/
theorem get_row_count_c8 {Row : Type} (f : PFile Row) (h : f.valid) :
    get_row_count f = (f.row_groups.map (fun g => g.num_rows)).sum ∧
    get_row_count f = ((iterate_rows f).length : Int) :=
  ⟨rfl, row_count_eq_length f h⟩

/-- C8 witness: a two-group file with matching metadata. -/
theorem get_row_count_c8_witness :
    PFile.valid (⟨[⟨[3, 4], 2⟩, ⟨[5], 1⟩]⟩ : PFile Nat) ∧
    (get_row_count (⟨[⟨[3, 4], 2⟩, ⟨[5], 1⟩]⟩ : PFile Nat) =
        ((⟨[⟨[3, 4], 2⟩, ⟨[5], 1⟩]⟩ : PFile Nat).row_groups.map
          (fun g => g.num_rows)).sum ∧
      get_row_count (⟨[⟨[3, 4], 2⟩, ⟨[5], 1⟩]⟩ : PFile Nat) =
        ((iterate_rows (⟨[⟨[3, 4], 2⟩, ⟨[5], 1⟩]⟩ : PFile Nat)).length : Int)) := by
  have hv : PFile.valid (⟨[⟨[3, 4], 2⟩, ⟨[5], 1⟩]⟩ : PFile Nat) := by
    intro g hg
    fin_cases hg <;> rfl
  exact ⟨hv, get_row_count_c8 (⟨[⟨[3, 4], 2⟩, ⟨[5], 1⟩]⟩ : PFile Nat) hv⟩

/-- C7 counterexample: `get_pretty_size 1024` is `"1 KiB"`, not `"1.000 KiB"`:
Rust ignores the `{:.3}` precision specifier for integral values, and the
argument of the format call is the integer quotient `1024 / 1024`. -/
theorem get_pretty_size_c7_counterexample :
    get_pretty_size 1024 ≠ "1.000 KiB" := by decide

/-- C7 as amended: `get_pretty_size 0 = "0 Bytes"`, `get_pretty_size 1024 =
"1 KiB"` (no fractional digits: the precision specifier is ignored for
integers), 1536 lands in the same KiB tier, and in general (for non-negative
input) the function selects the largest unit among Bytes, KiB, MiB, GiB, TiB,
PiB whose byte count divides into the input with quotient at least 1, falling
back to Bytes for values under 1024, rendering the truncated quotient. -/
theorem get_pretty_size_c7 (bytes : Int) (h : 0 ≤ bytes) :
    get_pretty_size 0 = "0 Bytes" ∧
    get_pretty_size 1024 = "1 KiB" ∧
    get_pretty_size 1536 = "1 KiB" ∧
    get_pretty_size bytes = pretty_size_spec bytes := by
  refine ⟨by decide, by decide, by decide, ?_⟩
  have k1 : ONE_KI_B = 1024 := rfl
  have k2 : ONE_MI_B = 1048576 := by norm_num [ONE_MI_B, ONE_KI_B]
  have k3 : ONE_GI_B = 1073741824 := by norm_num [ONE_GI_B, ONE_MI_B, ONE_KI_B]
  have k4 : ONE_TI_B = 1099511627776 := by
    norm_num [ONE_TI_B, ONE_GI_B, ONE_MI_B, ONE_KI_B]
  have k5 : ONE_PI_B = 1125899906842624 := by
    norm_num [ONE_PI_B, ONE_TI_B, ONE_GI_B, ONE_MI_B, ONE_KI_B]
  have d1 : Int.tdiv bytes 1024 = bytes / 1024 := Int.tdiv_eq_ediv h (by norm_num)
  have d2 : Int.tdiv bytes 1048576 = bytes / 1048576 := Int.tdiv_eq_ediv h (by norm_num)
  have d3 : Int.tdiv bytes 1073741824 = bytes / 1073741824 :=
    Int.tdiv_eq_ediv h (by norm_num)
  have d4 : Int.tdiv bytes 1099511627776 = bytes / 1099511627776 :=
    Int.tdiv_eq_ediv h (by norm_num)
  have d5 : Int.tdiv bytes 1125899906842624 = bytes / 1125899906842624 :=
    Int.tdiv_eq_ediv h (by norm_num)
  unfold get_pretty_size pretty_size_spec
  rw [k1, k2, k3, k4, k5, d1, d2, d3, d4, d5]
  split_ifs <;> first | rfl | omega

/-- C7 witness: the general unit-selection equation evaluated at a concrete
megabyte-tier input. -/
theorem get_pretty_size_c7_witness :
    (0 : Int) ≤ 5000000 ∧
    (get_pretty_size 0 = "0 Bytes" ∧
      get_pretty_size 1024 = "1 KiB" ∧
      get_pretty_size 1536 = "1 KiB" ∧
      get_pretty_size 5000000 = pretty_size_spec 5000000) :=
  ⟨by norm_num, get_pretty_size_c7 5000000 (by norm_num)⟩

/-- C9: `open_file` returns `Err(CouldNotOpenFile(path))` exactly when the path
cannot be opened, and returns the opened handle otherwise. -/
theorem open_file_c9 {File : Type} (fs : String → Option File) (file_name : String) :
    (open_file fs file_name = Except.error (PQRSError.CouldNotOpenFile file_name) ↔
      fs file_name = none) ∧
    (∀ f : File, fs file_name = some f → open_file fs file_name = Except.ok f) := by
  cases hfs : fs file_name with
  | none => simp [open_file, hfs]
  | some f0 => simp [open_file, hfs]

/-- C6 and C10 rest on closed forms of the `print_rows` loop; first the
`all_records = true` branch. -/
lemma print_rows_go_all {Row : Type} (tj td : Row → String) (json : Bool)
    (end_i : Int) (rows : List Row) (j : Nat) :
    print_rows_go tj td json true end_i (j : Int) rows =
      ((rows.enumFrom j).map (fun p =>
        [current_row_line (p.1 : Int) end_i, print_row tj td p.2 json])).flatten := by
  induction rows generalizing j with
  | nil => rw [print_rows_go]; simp
  | cons r t ih =>
    rw [print_rows_go, if_pos (Or.inl rfl)]
    have hj : ((j : Int) + 1) = ((j + 1 : Nat) : Int) := by push_cast; ring
    rw [hj, ih (j + 1)]
    simp [List.enumFrom]

/-- The `all_records = false` branch of the loop emits the next
`(end_i - j).toNat` rows. -/
lemma print_rows_go_count {Row : Type} (tj td : Row → String) (json : Bool)
    (end_i : Int) (rows : List Row) (j : Nat) :
    print_rows_go tj td json false end_i (j : Int) rows =
      (((rows.take (end_i - (j : Int)).toNat).enumFrom j).map (fun p =>
        [current_row_line (p.1 : Int) end_i, print_row tj td p.2 json])).flatten := by
  induction rows generalizing j with
  | nil => rw [print_rows_go]; simp
  | cons r t ih =>
    by_cases h : (j : Int) < end_i
    · rw [print_rows_go, if_pos (Or.inr h)]
      have htake : (end_i - (j : Int)).toNat =
          (end_i - ((j + 1 : Nat) : Int)).toNat + 1 := by push_cast; omega
      have hj : ((j : Int) + 1) = ((j + 1 : Nat) : Int) := by push_cast; ring
      rw [htake, List.take_succ_cons, hj, ih (j + 1)]
      simp [List.enumFrom]
    · rw [print_rows_go, if_neg (by simp [h])]
      have h0 : (end_i - (j : Int)).toNat = 0 := by omega
      rw [h0]
      simp

/-- C10: the printed output of `print_rows` is, for each emitted row at
0-based position `i`, the extra line `CurrentRow i end` (where `end` is the
requested count, 0 when none is given) followed by the row's rendering — so
the output is not only the row renderings. -/
theorem print_rows_c10 {Row : Type} (tj td : Row → String) (json : Bool)
    (rows : List Row) (num_records : Option Int) :
    print_rows tj td json rows num_records =
      row_output tj td json (num_records.getD 0) (emitted_rows rows num_records) := by
  cases num_records with
  | none =>
    have h := print_rows_go_all tj td json 0 rows 0
    simpa [print_rows, row_output, emitted_rows, List.enum] using h
  | some c =>
    have h := print_rows_go_count tj td json c rows 0
    simpa [print_rows, row_output, emitted_rows, List.enum] using h

/-- C6: with a count `c`, `print_rows` emits exactly the first
`min(c, number of rows)` rows (stopping at whichever limit is reached first),
and with no count it emits every row. -/
theorem print_rows_c6 {Row : Type} (tj td : Row → String) (json : Bool)
    (rows : List Row) (c : Int) (hc : 0 ≤ c) :
    print_rows tj td json rows (some c) =
      row_output tj td json c (rows.take c.toNat) ∧
    (((rows.take c.toNat).length : Int) = min c (rows.length : Int)) ∧
    print_rows tj td json rows none = row_output tj td json 0 rows := by
  refine ⟨?_, ?_, ?_⟩
  · have h := print_rows_go_count tj td json c rows 0
    simpa [print_rows, row_output, List.enum] using h
  · rw [List.length_take]
    omega
  · have h := print_rows_go_all tj td json 0 rows 0
    simpa [print_rows, row_output, List.enum] using h

/-- C6 witness: a concrete instantiation, count 1 over a one-row file. -/
theorem print_rows_c6_witness :
    (0 : Int) ≤ 1 ∧
    (print_rows (fun n : Nat => toString n) (fun n => toString n) true [7] (some 1) =
        row_output (fun n => toString n) (fun n => toString n) true 1
          (([7] : List Nat).take (1 : Int).toNat) ∧
      (((([7] : List Nat).take (1 : Int).toNat).length : Int) =
        min 1 (([7] : List Nat).length : Int)) ∧
      print_rows (fun n : Nat => toString n) (fun n => toString n) true [7] none =
        row_output (fun n => toString n) (fun n => toString n) true 0 [7]) :=
  ⟨by norm_num, print_rows_c6 _ _ true [7] 1 (by norm_num)⟩

/-- C9 witness: on a filesystem with no openable file the error is returned. -/
theorem open_file_c9_witness :
    open_file (fun _ => (none : Option Unit)) "data.parquet" =
      Except.error (PQRSError.CouldNotOpenFile "data.parquet") :=
  (open_file_c9 (fun _ => (none : Option Unit)) "data.parquet").1.mpr rfl

end PQRS
